import Mathlib

/-!
Verification of the Swiss tournament core of DimlasZ/TournamentOrganizer-NativeReact.

The JavaScript sources are shallowly embedded:
  * `src/logic/swiss.js`     — pairing engine (`buildPriorMatchups`, `hasPlayed`,
    `pairRound`, `_backtrackPair`, `_foldPair`, `_greedyPair`)
  * `src/logic/bye.js`       — bye selection (`selectByePlayer`)
  * `src/logic/standings.js` — tiebreak calculator (`computeStandings`)
  * `src/state/tournament.js` — round/tournament state machine

Modelling conventions:
  * JavaScript numbers are embedded as `ℚ` (the code only adds, divides and
    compares match counters, never relies on float rounding except for the
    1e-9 sort epsilon, which is embedded as the rational 1/10^9).
  * `null`/`undefined` become `Option`; JS truthiness of a string value
    (`null`, `undefined` and `""` are falsy) is `jsTruthyStr`.
  * A JS object keyed by player-id strings becomes an association list in key
    insertion order (player ids in this app are UUIDs, i.e. non-array-index
    keys, whose `Object.values` order is insertion order).
  * A JS `Set` observed only through `has` becomes a `List` of its keys
    observed through `contains`.
  * `Array.prototype.sort`, which ECMAScript requires to be stable, is
    embedded as a stable insertion sort over the source comparator.
  * Nondeterministic inputs (`crypto.randomUUID`, `new Date`) are passed in
    as explicit parameters (`fresh`, `now`).
-/

namespace TournamentOrganizer

/-! ## Data model (§3 of the spec, shapes produced by `tournament.js`) -/

/-- A submitted match result (`{player1Wins, player2Wins, draws, submittedAt,
correctedAt}`). -/
structure MatchResult where
  player1Wins : ℚ
  player2Wins : ℚ
  draws : ℚ
  submittedAt : String
  correctedAt : Option String
deriving Repr, DecidableEq

/-- A match record as built by `pairNextRound` (`player2Id` is `null` for a
bye). -/
structure MatchRec where
  id : String
  player1Id : String
  player2Id : Option String
  isBye : Bool
  result : Option MatchResult
deriving Repr, DecidableEq

/-- A round: `status` is the JS string `'active'` or `'complete'`. -/
structure Round where
  roundNumber : ℕ
  status : String
  «matches» : List MatchRec
deriving Repr, DecidableEq

/-- The tournament object created by `createTournament`. -/
structure Tournament where
  id : String
  dateStr : String
  status : String
  currentRound : ℕ
  activePlayers : List String
  droppedPlayers : List String
  rounds : List Round
  seatingOrder : Option (List String)
deriving Repr, DecidableEq

/-- The slice of the store state that `tournament.js` reads and writes. -/
structure AppState where
  tournament : Option Tournament
  pastTournaments : List Tournament
deriving Repr, DecidableEq

/-- JS truthiness of a nullable string: `null`/`undefined` and `""` are falsy. -/
def jsTruthyStr : Option String → Bool
  | none => false
  | some s => s ≠ ""

/-! ## `src/logic/swiss.js` -/

/-- `[a, b].sort().join('|')` — the canonical unordered key for a pair of ids.
`Array.prototype.sort` on two strings keeps `[a, b]` unless `b < a`. -/
def matchupKey (a b : String) : String :=
  if b < a then b ++ "|" ++ a else a ++ "|" ++ b

/-- `buildPriorMatchups`: collect the key of every non-bye match (with a
truthy `player2Id`) of every completed round.  The JS `Set` is observed only
through `has`, so a list of the inserted keys is an equivalent model. -/
def buildPriorMatchups (completedRounds : List Round) : List String :=
  completedRounds.flatMap fun round =>
    round.«matches».filterMap fun m =>
      if !m.isBye && jsTruthyStr m.player2Id then
        some (matchupKey m.player1Id (m.player2Id.getD ""))
      else none

/-- `hasPlayed`: membership of the canonical key in the prior-matchup set. -/
def hasPlayed (idA idB : String) (priorMatchups : List String) : Bool :=
  priorMatchups.contains (matchupKey idA idB)

/-- One pairing entry `{player1Id, player2Id}` returned by the pairing
engine. -/
structure PlayerPair where
  player1Id : String
  player2Id : String
deriving Repr, DecidableEq

/-- `_foldPair`: pair position `i` with position `i + half` for
`i ∈ [0, half)`, `half = ⌊n/2⌋`. -/
def foldPair (players : List String) : List PlayerPair :=
  let half := players.length / 2
  (List.range half).map fun i =>
    { player1Id := players.getD i "", player2Id := players.getD (i + half) "" }

/-- `_greedyPair`: pair sequentially (`i` with `i+1`, step 2), ignoring
rematches; an odd trailing player is left unpaired. -/
def greedyPair : List String → List PlayerPair
  | a :: b :: rest => ⟨a, b⟩ :: greedyPair rest
  | _ => []

mutual

/-- `_backtrackPair`: try to pair the first unmatched player with each later
player that is not a rematch, recursing on the remainder; `none` means no
rematch-free complete pairing was found from this branch. -/
def backtrackPair (players : List String) (priorMatchups : List String) :
    Option (List PlayerPair) :=
  match players with
  | [] => some []
  | first :: rest => btAux first [] rest priorMatchups
termination_by (players.length + 1, 0)
decreasing_by
  all_goals simp_wf
  all_goals simp only [Prod.lex_iff, List.length_append, List.length_reverse,
    List.length_cons]
  all_goals omega

/-- The candidate loop of `_backtrackPair`: `tried` holds (reversed) the
candidates already skipped or failed, `rest` the candidates still to try;
`tried.reverse ++ rs` is the JS `rest.filter((_, idx) => idx !== i)`. -/
def btAux (first : String) (tried rest : List String)
    (priorMatchups : List String) : Option (List PlayerPair) :=
  match rest with
  | [] => none
  | opponent :: rs =>
    if hasPlayed first opponent priorMatchups then
      btAux first (opponent :: tried) rs priorMatchups
    else
      match backtrackPair (tried.reverse ++ rs) priorMatchups with
      | some result => some (⟨first, opponent⟩ :: result)
      | none => btAux first (opponent :: tried) rs priorMatchups
termination_by (tried.length + rest.length + 1, rest.length)
decreasing_by
  all_goals simp_wf
  all_goals simp only [Prod.lex_iff, List.length_append, List.length_reverse,
    List.length_cons]
  all_goals omega

end

/-- The `playersToSchedule` local of `pairRound`: drop the bye recipient when
`byePlayerId` is truthy. -/
def playersToSchedule (playerIds : List String) (byePlayerId : Option String) :
    List String :=
  match byePlayerId with
  | some byeId => if byeId ≠ "" then playerIds.filter (fun id => id ≠ byeId)
                  else playerIds
  | none => playerIds

/-- `pairRound`: fold pairing when there is no completed round, otherwise
backtracking with the greedy fallback. -/
def pairRound (playerIds : List String) (completedRounds : List Round)
    (byePlayerId : Option String) : List PlayerPair :=
  let priorMatchups := buildPriorMatchups completedRounds
  let players := playersToSchedule playerIds byePlayerId
  if completedRounds.length = 0 then
    foldPair players
  else
    match backtrackPair players priorMatchups with
    | none => greedyPair players
    | some pairs => pairs

/-! ## `src/logic/bye.js` -/

/-- The `priorByeRecipients` set: `player1Id` of every bye match of every
completed round (a list observed through `contains`). -/
def priorByeRecipients (completedRounds : List Round) : List String :=
  completedRounds.flatMap fun round =>
    round.«matches».filterMap fun m =>
      if m.isBye then some m.player1Id else none

/-- The downward index loop of `selectByePlayer`: scan positions
`i-1, i-2, …, 0` and return the first id not among the recipients. -/
def byeScan (playerIds recips : List String) : ℕ → Option String
  | 0 => none
  | i + 1 =>
    let id := playerIds.getD i ""
    if recips.contains id then byeScan playerIds recips i else some id

/-- `selectByePlayer`: lowest-ranked player without a prior bye, else the
lowest-ranked player (JS returns `undefined` on an empty list, modelled as
`none`). -/
def selectByePlayer (playerIds : List String) (completedRounds : List Round) :
    Option String :=
  let recips := priorByeRecipients completedRounds
  match byeScan playerIds recips playerIds.length with
  | some id => some id
  | none => playerIds.getLast?

/-! ## `src/constants.js` -/

def POINTS_WIN : ℚ := 3
def POINTS_DRAW : ℚ := 1
def MIN_MATCH_WIN_PCT : ℚ := 33/100
def MIN_GAME_WIN_PCT : ℚ := 33/100

/-! ## `src/logic/standings.js`

The JS builds a per-player stats object and later spreads percentage fields
onto it; the embedding uses one `Standing` structure from the start, with the
percentage fields initialised to `0` and never read before being written
(matching the JS, where they do not exist until written). -/

/-- One standings entry. -/
structure Standing where
  playerId : String
  matchesPlayed : ℕ
  matchWins : ℕ
  matchLosses : ℕ
  matchDraws : ℕ
  matchPoints : ℚ
  gamesWon : ℚ
  gamesLost : ℚ
  gamesPlayed : ℚ
  opponents : List String
  hasBye : Bool
  mwPct : ℚ
  gwPct : ℚ
  omwPct : ℚ
  ogwPct : ℚ
deriving Repr, DecidableEq

/-- The zeroed stats object created for each active player id. -/
def initStanding (id : String) : Standing :=
  { playerId := id, matchesPlayed := 0, matchWins := 0, matchLosses := 0,
    matchDraws := 0, matchPoints := 0, gamesWon := 0, gamesLost := 0,
    gamesPlayed := 0, opponents := [], hasBye := false,
    mwPct := 0, gwPct := 0, omwPct := 0, ogwPct := 0 }

/-- `stats[id] = {...}` on a JS object: overwrite in place if the key exists,
otherwise append (string keys keep insertion order). -/
def statsInsert (stats : List Standing) (id : String) : List Standing :=
  if stats.any (fun s => s.playerId = id) then
    stats.map (fun s => if s.playerId = id then initStanding id else s)
  else stats ++ [initStanding id]

/-- The init loop of `computeStandings`: one zeroed entry per active player. -/
def initStats (activePlayers : List String) : List Standing :=
  activePlayers.foldl statsInsert []

/-- Mutation of the entry with key `id` (a no-op if the key is absent). -/
def statsUpdate (stats : List Standing) (id : String) (f : Standing → Standing) :
    List Standing :=
  stats.map fun s => if s.playerId = id then f s else s

/-- Key used for `stats[match.player2Id]`: a JS object lookup coerces a
`null` key to the string `"null"`. -/
def player2Key (m : MatchRec) : String := m.player2Id.getD "null"

/-- The body of the accumulation loop of `computeStandings` for one match. -/
def applyMatch (stats : List Standing) (m : MatchRec) : List Standing :=
  if m.isBye then
    match stats.find? (fun s => s.playerId = m.player1Id) with
    | none => stats
    | some _ =>
      statsUpdate stats m.player1Id fun s =>
        { s with matchesPlayed := s.matchesPlayed + 1,
                 matchWins := s.matchWins + 1,
                 matchPoints := s.matchPoints + POINTS_WIN,
                 gamesWon := s.gamesWon + 2,
                 gamesPlayed := s.gamesPlayed + 2,
                 hasBye := true }
  else
    match m.result with
    | none => stats
    | some res =>
      let totalGames := res.player1Wins + res.player2Wins + res.draws
      if (stats.find? (fun s => s.playerId = m.player1Id)).isSome
          ∧ (stats.find? (fun s => s.playerId = player2Key m)).isSome then
        let stats1 := statsUpdate stats m.player1Id fun s =>
          { s with matchesPlayed := s.matchesPlayed + 1,
                   gamesWon := s.gamesWon + res.player1Wins,
                   gamesLost := s.gamesLost + res.player2Wins,
                   gamesPlayed := s.gamesPlayed + totalGames,
                   opponents := s.opponents ++ [player2Key m] }
        let stats2 := statsUpdate stats1 (player2Key m) fun s =>
          { s with matchesPlayed := s.matchesPlayed + 1,
                   gamesWon := s.gamesWon + res.player2Wins,
                   gamesLost := s.gamesLost + res.player1Wins,
                   gamesPlayed := s.gamesPlayed + totalGames,
                   opponents := s.opponents ++ [m.player1Id] }
        if res.player1Wins > res.player2Wins then
          statsUpdate
            (statsUpdate stats2 m.player1Id fun s =>
              { s with matchWins := s.matchWins + 1,
                       matchPoints := s.matchPoints + POINTS_WIN })
            (player2Key m) fun s => { s with matchLosses := s.matchLosses + 1 }
        else if res.player2Wins > res.player1Wins then
          statsUpdate
            (statsUpdate stats2 (player2Key m) fun s =>
              { s with matchWins := s.matchWins + 1,
                       matchPoints := s.matchPoints + POINTS_WIN })
            m.player1Id fun s => { s with matchLosses := s.matchLosses + 1 }
        else
          statsUpdate
            (statsUpdate stats2 m.player1Id fun s =>
              { s with matchDraws := s.matchDraws + 1,
                       matchPoints := s.matchPoints + POINTS_DRAW })
            (player2Key m) fun s =>
              { s with matchDraws := s.matchDraws + 1,
                       matchPoints := s.matchPoints + POINTS_DRAW }
      else stats

/-- `_matchWinPct`. -/
def matchWinPct (s : Standing) : ℚ :=
  if s.matchesPlayed = 0 then MIN_MATCH_WIN_PCT
  else max (s.matchPoints / (3 * s.matchesPlayed)) MIN_MATCH_WIN_PCT

/-- `_gameWinPct`. -/
def gameWinPct (s : Standing) : ℚ :=
  if s.gamesPlayed = 0 then MIN_GAME_WIN_PCT
  else max (s.gamesWon / s.gamesPlayed) MIN_GAME_WIN_PCT

/-- `_omwPct`: mean of the `mwPct` of the opponents present in `byId`. -/
def omwPctOf (s : Standing) (byId : String → Option Standing) : ℚ :=
  let pcts := (s.opponents.filterMap byId).map Standing.mwPct
  if pcts.length = 0 then MIN_MATCH_WIN_PCT
  else pcts.sum / pcts.length

/-- `_ogwPct`: mean of the `gwPct` of the opponents present in `byId`. -/
def ogwPctOf (s : Standing) (byId : String → Option Standing) : ℚ :=
  let pcts := (s.opponents.filterMap byId).map Standing.gwPct
  if pcts.length = 0 then MIN_GAME_WIN_PCT
  else pcts.sum / pcts.length

/-- The float literal `1e-9` of the sort comparator. -/
def SORT_EPS : ℚ := 1/1000000000

/-- `Math.abs` (kept as an executable definition; equal to `|·|`). -/
def ratAbs (q : ℚ) : ℚ := if q < 0 then -q else q

/-- `comparator(a, b) < 0` for the sort comparator of `computeStandings`:
match points descending, then OMW% and GW% descending with the `1e-9`
epsilon, then OGW% descending compared exactly. -/
def standingLt (a b : Standing) : Bool :=
  if a.matchPoints ≠ b.matchPoints then b.matchPoints < a.matchPoints
  else if ratAbs (b.omwPct - a.omwPct) > SORT_EPS then b.omwPct < a.omwPct
  else if ratAbs (b.gwPct - a.gwPct) > SORT_EPS then b.gwPct < a.gwPct
  else b.ogwPct < a.ogwPct

/-- Insert into a sorted accumulator, after every element it does not
strictly precede (stable placement). -/
def jsInsert (x : Standing) : List Standing → List Standing
  | [] => [x]
  | h :: t => if standingLt x h then x :: h :: t else h :: jsInsert x t

/-- `Array.prototype.sort` with the comparator above, modelled as the stable
insertion sort (ECMAScript requires the sort to be stable). -/
def jsSort (l : List Standing) : List Standing :=
  l.foldl (fun acc x => jsInsert x acc) []

/-- The accumulation loops of `computeStandings` over the completed rounds. -/
def accumulateRounds (rds : List Round) (stats : List Standing) : List Standing :=
  rds.foldl (fun acc round => round.«matches».foldl applyMatch acc) stats

/-- The first pass of `computeStandings`: spread `mwPct`/`gwPct` onto each
entry (`omwPct`/`ogwPct` start at 0). -/
def firstPassOf (stats : List Standing) : List Standing :=
  stats.map fun s =>
    { s with mwPct := matchWinPct s, gwPct := gameWinPct s,
             omwPct := 0, ogwPct := 0 }

/-- The `byId` lookup table (`Object.fromEntries`; keys are unique after the
init loop, so first-match lookup is exact). -/
def byIdOf (l : List Standing) : String → Option Standing :=
  fun id => l.find? (fun s => s.playerId = id)

/-- The second pass of `computeStandings`: fill in the opponent tiebreakers.
The JS mutates `omwPct`/`ogwPct` in place while reading only `mwPct`/`gwPct`
through `byId`, so a pure map is an exact model. -/
def secondPassOf (l : List Standing) : List Standing :=
  l.map fun s =>
    { s with omwPct := omwPctOf s (byIdOf l), ogwPct := ogwPctOf s (byIdOf l) }

/-- `computeStandings`: aggregate per-player stats from completed rounds,
compute the four percentage tiebreakers, sort. -/
def computeStandings (activePlayers : List String) (rounds : List Round) :
    List Standing :=
  jsSort (secondPassOf (firstPassOf
    (accumulateRounds (rounds.filter (fun r => r.status == "complete"))
      (initStats activePlayers))))

/-- Claim-side order for C8, following the spec's words: match points
descending, then OMW%, GW%, OGW% descending where EACH percentage comparison
treats values within `1e-9` as equal and passes the tie on, fully tied
players keeping the input order of `activePlayers`.  (The source comparator
`standingLt` differs: its final OGW% comparison has no epsilon.) -/
def specStandingLe (activePlayers : List String) (a b : Standing) : Bool :=
  if a.matchPoints ≠ b.matchPoints then b.matchPoints < a.matchPoints
  else if ratAbs (a.omwPct - b.omwPct) > SORT_EPS then b.omwPct < a.omwPct
  else if ratAbs (a.gwPct - b.gwPct) > SORT_EPS then b.gwPct < a.gwPct
  else if ratAbs (a.ogwPct - b.ogwPct) > SORT_EPS then b.ogwPct < a.ogwPct
  else activePlayers.indexOf a.playerId ≤ activePlayers.indexOf b.playerId

/-- Executable adjacent-pairwise check that a standings list is sorted under
the claim-side order above. -/
def specChainBool (activePlayers : List String) : List Standing → Bool
  | [] => true
  | [_] => true
  | a :: b :: t => specStandingLe activePlayers a b && specChainBool activePlayers (b :: t)

/-- All players mentioned by a pairing, in order (for C1/C6). -/
def flattenPairs (pairs : List PlayerPair) : List String :=
  pairs.flatMap fun p => [p.player1Id, p.player2Id]

/-- The pairing pairs no two players who already played (for C1). -/
def rematchFree (pairs : List PlayerPair) (prior : List String) : Prop :=
  ∀ p ∈ pairs, hasPlayed p.player1Id p.player2Id prior = false

/-- Claim-side notion for C1: some rematch-free complete pairing of the
given players exists (a list of pairs whose members are exactly the given
players, each once). -/
def completePairingExists (players prior : List String) : Prop :=
  ∃ pairs : List PlayerPair,
    (flattenPairs pairs).Perm players ∧ rematchFree pairs prior

/-! ## `src/state/tournament.js`

`getState`/`setState` act on a module-level store; each exported transition
becomes a pure function `AppState → AppState` (or `AppState → Bool × AppState`
when the JS returns a value).  `crypto.randomUUID()` is modelled by a caller
supplied `fresh : ℕ → String` (the `i`-th id minted during the transition),
`new Date().toISOString()` by a caller-supplied `now : String`. -/

/-- `getActiveRound`: the first round with status `'active'`, or `null`. -/
def getActiveRound (s : AppState) : Option Round :=
  match s.tournament with
  | none => none
  | some t => t.rounds.find? (fun r => r.status == "active")

/-- `isRoundComplete`: every match of the active round is a bye or has a
result. -/
def isRoundComplete (s : AppState) : Bool :=
  match getActiveRound s with
  | none => false
  | some round => round.«matches».all (fun m => m.isBye || m.result.isSome)

/-- `completeCurrentRound`: close the active round, or return `false` without
touching the state. -/
def completeCurrentRound (s : AppState) : Bool × AppState :=
  match getActiveRound s with
  | none => (false, s)
  | some round =>
    if isRoundComplete s then
      (true,
        { s with tournament := s.tournament.map fun t =>
            { t with rounds := t.rounds.map fun r =>
                if r.roundNumber = round.roundNumber then
                  { r with status := "complete" }
                else r } })
    else (false, s)

/-- The `sortedPlayerIds` local of `pairNextRound`: confirmed seating order
for round 1, standings order afterwards. -/
def nextRoundOrdering (t : Tournament) : List String :=
  let completedRounds := t.rounds.filter (fun r => r.status == "complete")
  if completedRounds.length = 0 then
    t.seatingOrder.getD t.activePlayers
  else
    (computeStandings t.activePlayers completedRounds).map Standing.playerId

/-- The bye assignment step of `pairNextRound`: a bye only for an odd count. -/
def byeForRound (sortedPlayerIds : List String) (completedRounds : List Round) :
    Option String :=
  if sortedPlayerIds.length % 2 ≠ 0 then
    selectByePlayer sortedPlayerIds completedRounds
  else none

/-- The match materialisation step of `pairNextRound`: one pending match per
pair (ids minted in order), plus the auto-resolved 2-0 bye match when
`byePlayerId` is truthy. -/
def buildMatches (fresh : ℕ → String) (now : String) (pairs : List PlayerPair)
    (byePlayerId : Option String) : List MatchRec :=
  let pairMatches : List MatchRec := pairs.enum.map fun ip =>
    { id := fresh ip.1, player1Id := ip.2.player1Id,
      player2Id := some ip.2.player2Id, isBye := false, result := none }
  if jsTruthyStr byePlayerId then
    pairMatches ++
      [{ id := fresh pairs.length, player1Id := byePlayerId.getD "",
         player2Id := none, isBye := true,
         result := some { player1Wins := 2, player2Wins := 0, draws := 0,
                          submittedAt := now, correctedAt := none } }]
  else pairMatches

/-- `pairNextRound`: pair the next round and append it as an active round.
`fresh i` is the id of the `i`-th match minted, `now` the bye timestamp. -/
def pairNextRound (fresh : ℕ → String) (now : String) (s : AppState) :
    AppState :=
  match s.tournament with
  | none => s
  | some t =>
    if t.status ≠ "active" then s
    else
      let completedRounds := t.rounds.filter (fun r => r.status == "complete")
      let byePlayerId := byeForRound (nextRoundOrdering t) completedRounds
      let allMatches := buildMatches fresh now
        (pairRound (nextRoundOrdering t) completedRounds byePlayerId)
        byePlayerId
      let t2 : Tournament :=
        { t with currentRound := completedRounds.length + 1,
                 rounds := t.rounds ++
                   [{ roundNumber := completedRounds.length + 1,
                      status := "active", «matches» := allMatches }] }
      { s with tournament := some t2 }

/-- `repairActiveRound`: regenerate the active round unless a non-bye result
has already been submitted (or there is no tournament / no active round). -/
def repairActiveRound (fresh : ℕ → String) (now : String) (s : AppState) :
    AppState :=
  match s.tournament with
  | none => s
  | some t =>
    match t.rounds.find? (fun r => r.status == "active") with
    | none => s
    | some activeRound =>
      if activeRound.«matches».any (fun m => m.result.isSome && !m.isBye) then s
      else
        let completedCount :=
          (t.rounds.filter (fun r => r.status == "complete")).length
        let t2 : Tournament :=
          { t with currentRound := completedCount,
                   rounds := t.rounds.filter (fun r => r.status ≠ "active") }
        pairNextRound fresh now { s with tournament := some t2 }

/-- `dropPlayer`: remove the player from `activePlayers`, append to
`droppedPlayers`.  (The JS dereferences `state.tournament` unconditionally and
would throw on `null`; the claims only concern states with a tournament, so
the `none` branch returns the state unchanged.) -/
def dropPlayer (playerId : String) (s : AppState) : AppState :=
  match s.tournament with
  | none => s
  | some t =>
    let t2 : Tournament :=
      { t with activePlayers := t.activePlayers.filter (fun id => id ≠ playerId),
               droppedPlayers := t.droppedPlayers ++ [playerId] }
    { s with tournament := some t2 }

/-! ## Example fixtures used by the concrete witnesses -/

def exResult : MatchResult :=
  { player1Wins := 2, player2Wins := 0, draws := 0, submittedAt := "s",
    correctedAt := none }

def exMatchPending : MatchRec :=
  { id := "m", player1Id := "A", player2Id := some "B", isBye := false,
    result := none }

def exMatchDone : MatchRec := { exMatchPending with result := some exResult }

def exRound (ms : List MatchRec) : Round :=
  { roundNumber := 1, status := "active", «matches» := ms }

def exTournament (ms : List MatchRec) : Tournament :=
  { id := "t", dateStr := "d", status := "active", currentRound := 1,
    activePlayers := ["A", "B"], droppedPlayers := [], rounds := [exRound ms],
    seatingOrder := none }

def exState (ms : List MatchRec) : AppState :=
  { tournament := some (exTournament ms), pastTournaments := [] }

/-- A submitted (non-bye) result with the given game counts. -/
def exRes (a b : ℚ) : MatchResult :=
  { player1Wins := a, player2Wins := b, draws := 0, submittedAt := "s",
    correctedAt := none }

/-- A completed non-bye match between `B` and `C` (used for C10 with an
active-player list that contains neither). -/
def c10Match : MatchRec :=
  { id := "m", player1Id := "B", player2Id := some "C", isBye := false,
    result := some exResult }

/-- A completed round holding only `c10Match`. -/
def c10Round : Round :=
  { roundNumber := 1, status := "complete", «matches» := [c10Match] }

/-- A three-player active tournament with no rounds yet (used for C6). -/
def c6Tournament : Tournament :=
  { id := "t", dateStr := "d", status := "active", currentRound := 0,
    activePlayers := ["A", "B", "C"], droppedPlayers := [], rounds := [],
    seatingOrder := none }

/-- App state holding `c6Tournament`. -/
def c6State : AppState :=
  { tournament := some c6Tournament, pastTournaments := [] }

/-- Completed round making players `P` and `Q` tied on match points and
within `1e-9` on OMW%, GW% and OGW%, with `Q`'s OGW% exactly `1e-10` above
`P`'s. -/
def c8Round : Round :=
  { roundNumber := 1, status := "complete",
    «matches» := [
      { id := "m1", player1Id := "P", player2Id := some "X", isBye := false,
        result := some (exRes 6000000000 4000000000) },
      { id := "m2", player1Id := "Q", player2Id := some "Y", isBye := false,
        result := some (exRes 5999999999 4000000001) } ] }

/-! ## Theorems -/

/-- The downward bye scan over the first `n` positions finds the last of the
first `n` players that is not a prior bye recipient. -/
theorem byeScan_take (ps recips : List String) :
    ∀ n, n ≤ ps.length →
      byeScan ps recips n
        = (ps.take n).reverse.find? (fun id => !recips.contains id) := by
  intro n
  induction n with
  | zero => intro; simp [byeScan]
  | succ k ih =>
    intro hk
    have hk' : k < ps.length := hk
    have hsome : ps[k]? = some ps[k] := List.getElem?_eq_getElem hk'
    have hgetD : ps.getD k "" = ps[k] := by
      rw [List.getD, List.get?_eq_getElem?, hsome, Option.getD_some]
    have htake : (ps.take (k + 1)).reverse = ps[k] :: (ps.take k).reverse := by
      rw [List.take_succ, hsome]
      simp
    have hstep : byeScan ps recips (k + 1)
        = if recips.contains (ps.getD k "") then byeScan ps recips k
          else some (ps.getD k "") := rfl
    rw [hstep, hgetD, htake]
    by_cases hc : recips.contains ps[k] = true
    · rw [if_pos hc, List.find?_cons_of_neg _ (by simpa using hc)]
      exact ih (Nat.le_of_lt hk')
    · rw [if_neg hc, List.find?_cons_of_pos _ (by simpa using hc)]

/-- C3: for a nonempty ranking, `selectByePlayer` returns the last-ranked
player that is not `player1` of any bye match of the completed rounds, and
the last-ranked player outright when every listed player already had a bye
(`Option.getD` covers that fallback); with no prior bye matches this is the
last-ranked player.  The claim's "subsequent call" sentence is the first
conjunct applied to the history extended with the new bye match. -/
theorem selectByePlayer_spec (ps : List String) (cr : List Round) (hne : ps ≠ []) :
    selectByePlayer ps cr
      = some ((ps.reverse.find?
          (fun id => !(priorByeRecipients cr).contains id)).getD (ps.getLast hne)) ∧
    ((∀ r ∈ cr, ∀ m ∈ r.«matches», m.isBye = false) →
      selectByePlayer ps cr = some (ps.getLast hne)) := by
  have hscan := byeScan_take ps (priorByeRecipients cr) ps.length (Nat.le_refl _)
  rw [List.take_length] at hscan
  have main : selectByePlayer ps cr
      = some ((ps.reverse.find?
          (fun id => !(priorByeRecipients cr).contains id)).getD (ps.getLast hne)) := by
    show (match byeScan ps (priorByeRecipients cr) ps.length with
          | some id => some id
          | none => ps.getLast?) = _
    rw [hscan]
    cases hf : ps.reverse.find? (fun id => !(priorByeRecipients cr).contains id) with
    | some id => simp
    | none => simp [List.getLast?_eq_getLast ps hne]
  refine ⟨main, fun hnb => ?_⟩
  have hrec : priorByeRecipients cr = [] := by
    unfold priorByeRecipients
    rw [List.flatMap_eq_nil_iff]
    intro r hr
    rw [List.filterMap_eq_nil_iff]
    intro m hm
    simp [hnb r hr m hm]
  rw [main, hrec]
  have : ps.reverse.find? (fun id => !(List.nil (α := String)).contains id)
      = ps.reverse.head? := by
    cases hrev : ps.reverse with
    | nil => simp
    | cons a l => simp
  rw [this]
  have hrev : ps.reverse.head? = some (ps.getLast hne) := by
    rw [← List.getLast?_eq_head?_reverse, List.getLast?_eq_getLast ps hne]
  rw [hrev]
  simp

/-- A concrete run of `selectByePlayer_spec` on two players and no history. -/
theorem selectByePlayer_spec_witness :
    selectByePlayer ["A", "B"] []
      = some (((["A", "B"] : List String).reverse.find?
          (fun id => !(priorByeRecipients []).contains id)).getD
          ((["A", "B"] : List String).getLast (by decide))) ∧
    ((∀ r ∈ ([] : List Round), ∀ m ∈ r.«matches», m.isBye = false) →
      selectByePlayer ["A", "B"] []
        = some ((["A", "B"] : List String).getLast (by decide))) :=
  selectByePlayer_spec ["A", "B"] [] (by decide)

/-- C5: with no completed rounds and no bye, `pairRound` on a list of length
`2h` is the fold pairing: `h` pairs, pair `i` being positions `i` and `i+h`. -/
theorem pairRound_round1_fold (ps : List String) (h : ℕ)
    (hlen : ps.length = 2 * h) :
    (pairRound ps [] none).length = h ∧
    ∀ i, i < h → (pairRound ps [] none)[i]?
      = some { player1Id := ps.getD i "", player2Id := ps.getD (i + h) "" } := by
  have hpr : pairRound ps [] none
      = (List.range h).map (fun i =>
          ({ player1Id := ps.getD i "", player2Id := ps.getD (i + h) "" } :
            PlayerPair)) := by
    simp only [pairRound, playersToSchedule, foldPair, List.length_nil, if_true,
      hlen]
    rw [Nat.mul_div_cancel_left h (by norm_num : 0 < 2)]
  constructor
  · rw [hpr]; simp
  · intro i hi
    rw [hpr, List.getElem?_map, List.getElem?_range hi]
    rfl

/-- A concrete run of `pairRound_round1_fold` on the spec's 8-player example
`[A,B,C,D,E,F,G,H] ↦ [(A,E),(B,F),(C,G),(D,H)]`. -/
theorem pairRound_round1_fold_witness :
    (["A", "B", "C", "D", "E", "F", "G", "H"] : List String).length = 2 * 4 ∧
    pairRound ["A", "B", "C", "D", "E", "F", "G", "H"] [] none
      = [⟨"A", "E"⟩, ⟨"B", "F"⟩, ⟨"C", "G"⟩, ⟨"D", "H"⟩] := by
  refine ⟨by decide, ?_⟩
  have h := pairRound_round1_fold ["A", "B", "C", "D", "E", "F", "G", "H"] 4
    (by decide)
  decide

/-- C4: with an active round present, `completeCurrentRound` returns `false`
and leaves the state untouched when some non-bye match has no result, and
returns `true` after marking the active round (every round of its number)
complete when every non-bye match has a result. -/
theorem completeCurrentRound_spec (s : AppState) (round : Round)
    (hr : getActiveRound s = some round) :
    ((∃ m ∈ round.«matches», m.isBye = false ∧ m.result = none) →
        completeCurrentRound s = (false, s)) ∧
    ((∀ m ∈ round.«matches», m.isBye = false → m.result ≠ none) →
        completeCurrentRound s = (true,
          { s with tournament := s.tournament.map fun t =>
              { t with rounds := t.rounds.map fun r =>
                  if r.roundNumber = round.roundNumber then
                    { r with status := "complete" }
                  else r } })) := by
  constructor
  · rintro ⟨m, hm, hbye, hres⟩
    have hall : isRoundComplete s = false := by
      unfold isRoundComplete
      rw [hr]
      simp only [List.all_eq_true, not_forall]
      rw [Bool.eq_false_iff]
      intro hforall
      rw [List.all_eq_true] at hforall
      have := hforall m hm
      simp [hbye, hres] at this
    unfold completeCurrentRound
    rw [hr, hall]
    simp
  · intro hall
    have hcomp : isRoundComplete s = true := by
      unfold isRoundComplete
      rw [hr]
      rw [List.all_eq_true]
      intro m hm
      by_cases hb : m.isBye
      · simp [hb]
      · have := hall m hm (by simpa using hb)
        simp only [Bool.or_eq_true, Option.isSome_iff_exists]
        cases hres : m.result with
        | none => exact absurd hres this
        | some r => exact Or.inr ⟨r, rfl⟩
    unfold completeCurrentRound
    rw [hr, hcomp]
    simp

/-- A concrete run of `completeCurrentRound_spec`: one active round whose only
match is a non-bye without a result. -/
theorem completeCurrentRound_spec_witness :
    ((∃ m ∈ (exRound [exMatchPending]).«matches», m.isBye = false ∧ m.result = none) →
        completeCurrentRound (exState [exMatchPending])
          = (false, exState [exMatchPending])) ∧
    ((∀ m ∈ (exRound [exMatchPending]).«matches», m.isBye = false → m.result ≠ none) →
        completeCurrentRound (exState [exMatchPending])
          = (true,
              { exState [exMatchPending] with
                  tournament := (exState [exMatchPending]).tournament.map fun t =>
                    { t with rounds := t.rounds.map fun r =>
                        if r.roundNumber = (exRound [exMatchPending]).roundNumber then
                          { r with status := "complete" }
                        else r } })) :=
  completeCurrentRound_spec (exState [exMatchPending]) (exRound [exMatchPending])
    (by decide)

/-- C7: `repairActiveRound` leaves the state unchanged when there is no
tournament, when there is no active round, or when some non-bye match of the
active round already has a result. -/
theorem repairActiveRound_noop (fresh : ℕ → String) (now : String) (s : AppState)
    (h : s.tournament = none
      ∨ (∃ t, s.tournament = some t ∧
          t.rounds.find? (fun r => r.status == "active") = none)
      ∨ (∃ t ar, s.tournament = some t ∧
          t.rounds.find? (fun r => r.status == "active") = some ar ∧
          ∃ m ∈ ar.«matches», m.result ≠ none ∧ m.isBye = false)) :
    repairActiveRound fresh now s = s := by
  rcases h with h | ⟨t, ht, hf⟩ | ⟨t, ar, ht, hf, m, hm, hres, hbye⟩
  · simp [repairActiveRound, h]
  · simp [repairActiveRound, ht, hf]
  · have hany : ar.«matches».any (fun m => m.result.isSome && !m.isBye) = true := by
      rw [List.any_eq_true]
      refine ⟨m, hm, ?_⟩
      rw [Bool.and_eq_true, Bool.not_eq_true', hbye]
      exact ⟨Option.isSome_iff_ne_none.mpr hres, rfl⟩
    simp [repairActiveRound, ht, hf, hany]

/-- A concrete run of `repairActiveRound_noop`: the single non-bye match of
the active round already has a result. -/
theorem repairActiveRound_noop_witness :
    repairActiveRound (fun _ => "u") "now" (exState [exMatchDone])
      = exState [exMatchDone] :=
  repairActiveRound_noop (fun _ => "u") "now" (exState [exMatchDone])
    (Or.inr (Or.inr ⟨exTournament [exMatchDone], exRound [exMatchDone], rfl,
      by decide, exMatchDone, by decide, by decide, rfl⟩))

/-- C9: `dropPlayer` only filters the player out of `activePlayers` and
appends it to `droppedPlayers`; rounds, every other tournament field and the
rest of the state are unchanged. -/
theorem dropPlayer_frame (pid : String) (s : AppState) (t : Tournament)
    (h : s.tournament = some t) :
    ∃ t2, (dropPlayer pid s).tournament = some t2 ∧
      t2.activePlayers = t.activePlayers.filter (fun id => id ≠ pid) ∧
      t2.droppedPlayers = t.droppedPlayers ++ [pid] ∧
      t2.rounds = t.rounds ∧
      t2.id = t.id ∧ t2.dateStr = t.dateStr ∧ t2.status = t.status ∧
      t2.currentRound = t.currentRound ∧ t2.seatingOrder = t.seatingOrder ∧
      (dropPlayer pid s).pastTournaments = s.pastTournaments := by
  unfold dropPlayer
  rw [h]
  exact ⟨_, rfl, rfl, rfl, rfl, rfl, rfl, rfl, rfl, rfl, rfl⟩

/-- A concrete run of `dropPlayer_frame`. -/
theorem dropPlayer_frame_witness :
    ∃ t2, (dropPlayer "B" (exState [])).tournament = some t2 ∧
      t2.activePlayers
        = (exTournament []).activePlayers.filter (fun id => id ≠ "B") ∧
      t2.droppedPlayers = (exTournament []).droppedPlayers ++ ["B"] ∧
      t2.rounds = (exTournament []).rounds ∧
      t2.id = (exTournament []).id ∧ t2.dateStr = (exTournament []).dateStr ∧
      t2.status = (exTournament []).status ∧
      t2.currentRound = (exTournament []).currentRound ∧
      t2.seatingOrder = (exTournament []).seatingOrder ∧
      (dropPlayer "B" (exState [])).pastTournaments
        = (exState []).pastTournaments :=
  dropPlayer_frame "B" (exState []) (exTournament []) rfl

/-- A list mean is at least any common lower bound of its entries. -/
theorem le_sum_div_length (l : List ℚ) (c : ℚ) (hc : ∀ x ∈ l, c ≤ x)
    (hne : l ≠ []) : c ≤ l.sum / l.length := by
  have hsum : ∀ l' : List ℚ, (∀ x ∈ l', c ≤ x) → c * l'.length ≤ l'.sum := by
    intro l'
    induction l' with
    | nil => intro; simp
    | cons a t ih =>
      intro h
      have ha := h a (List.mem_cons_self a t)
      have ht := ih (fun x hx => h x (List.mem_cons_of_mem a hx))
      simp only [List.sum_cons, List.length_cons]
      push_cast
      linarith
  have hlen : (0 : ℚ) < l.length := by
    have := List.length_pos.mpr hne
    exact_mod_cast this
  rw [le_div_iff₀ hlen]
  exact hsum l hc

/-- `_matchWinPct` never goes below the floor. -/
theorem matchWinPct_ge_min (s : Standing) : MIN_MATCH_WIN_PCT ≤ matchWinPct s := by
  unfold matchWinPct
  split
  · exact le_refl _
  · exact le_max_right _ _

/-- `_gameWinPct` never goes below the floor. -/
theorem gameWinPct_ge_min (s : Standing) : MIN_GAME_WIN_PCT ≤ gameWinPct s := by
  unfold gameWinPct
  split
  · exact le_refl _
  · exact le_max_right _ _

/-- `_omwPct` never goes below the floor when every looked-up opponent is
already floored. -/
theorem omwPctOf_ge_min (s : Standing) (byId : String → Option Standing)
    (h : ∀ id st, byId id = some st → MIN_MATCH_WIN_PCT ≤ st.mwPct) :
    MIN_MATCH_WIN_PCT ≤ omwPctOf s byId := by
  show MIN_MATCH_WIN_PCT ≤
    (if ((s.opponents.filterMap byId).map Standing.mwPct).length = 0
     then MIN_MATCH_WIN_PCT
     else ((s.opponents.filterMap byId).map Standing.mwPct).sum /
       ((s.opponents.filterMap byId).map Standing.mwPct).length)
  split
  · exact le_refl _
  · next hlen =>
    apply le_sum_div_length
    · intro x hx
      obtain ⟨st, hst, rfl⟩ := List.mem_map.mp hx
      obtain ⟨id, _, hfind⟩ := List.mem_filterMap.mp hst
      exact h id st hfind
    · intro hnil
      exact hlen (by rw [hnil]; rfl)

/-- `_ogwPct` never goes below the floor when every looked-up opponent is
already floored. -/
theorem ogwPctOf_ge_min (s : Standing) (byId : String → Option Standing)
    (h : ∀ id st, byId id = some st → MIN_GAME_WIN_PCT ≤ st.gwPct) :
    MIN_GAME_WIN_PCT ≤ ogwPctOf s byId := by
  show MIN_GAME_WIN_PCT ≤
    (if ((s.opponents.filterMap byId).map Standing.gwPct).length = 0
     then MIN_GAME_WIN_PCT
     else ((s.opponents.filterMap byId).map Standing.gwPct).sum /
       ((s.opponents.filterMap byId).map Standing.gwPct).length)
  split
  · exact le_refl _
  · next hlen =>
    apply le_sum_div_length
    · intro x hx
      obtain ⟨st, hst, rfl⟩ := List.mem_map.mp hx
      obtain ⟨id, _, hfind⟩ := List.mem_filterMap.mp hst
      exact h id st hfind
    · intro hnil
      exact hlen (by rw [hnil]; rfl)

/-- `statsUpdate` with a key-preserving mutation preserves the key row. -/
theorem statsUpdate_map_playerId (stats : List Standing) (id : String)
    (f : Standing → Standing) (hf : ∀ s, (f s).playerId = s.playerId) :
    (statsUpdate stats id f).map Standing.playerId
      = stats.map Standing.playerId := by
  induction stats with
  | nil => rfl
  | cons a t ih =>
    have hcons : statsUpdate (a :: t) id f
        = (if a.playerId = id then f a else a) :: statsUpdate t id f := rfl
    rw [hcons, List.map_cons, List.map_cons, ih]
    congr 1
    split
    · exact hf a
    · rfl

/-- Every branch of the accumulation step preserves the key row. -/
theorem applyMatch_map_playerId (stats : List Standing) (m : MatchRec) :
    (applyMatch stats m).map Standing.playerId = stats.map Standing.playerId := by
  have hu := statsUpdate_map_playerId
  simp only [applyMatch]
  split
  · split
    · rfl
    · exact hu _ _ _ (fun s => rfl)
  · split
    · rfl
    · split
      · split
        · refine (hu _ _ _ ?_).trans ((hu _ _ _ ?_).trans
            ((hu _ _ _ ?_).trans (hu _ _ _ ?_))) <;> exact fun s => rfl
        · split
          · refine (hu _ _ _ ?_).trans ((hu _ _ _ ?_).trans
              ((hu _ _ _ ?_).trans (hu _ _ _ ?_))) <;> exact fun s => rfl
          · refine (hu _ _ _ ?_).trans ((hu _ _ _ ?_).trans
              ((hu _ _ _ ?_).trans (hu _ _ _ ?_))) <;> exact fun s => rfl
      · rfl

/-- The match loop preserves the key row. -/
theorem foldl_applyMatch_keys (ms : List MatchRec) :
    ∀ stats, (ms.foldl applyMatch stats).map Standing.playerId
      = stats.map Standing.playerId := by
  induction ms with
  | nil => intro _; rfl
  | cons m ms ih =>
    intro stats
    rw [List.foldl_cons, ih, applyMatch_map_playerId]

/-- The round loop preserves the key row. -/
theorem accumulateRounds_keys (rds : List Round) :
    ∀ stats, (accumulateRounds rds stats).map Standing.playerId
      = stats.map Standing.playerId := by
  induction rds with
  | nil => intro _; rfl
  | cons r rds ih =>
    intro stats
    show (accumulateRounds rds (r.«matches».foldl applyMatch stats)).map
        Standing.playerId = stats.map Standing.playerId
    rw [ih, foldl_applyMatch_keys]

/-- Inserting a fresh key appends a zeroed entry. -/
theorem statsInsert_of_fresh (acc : List Standing) (p : String)
    (hp : ∀ s ∈ acc, s.playerId ≠ p) :
    statsInsert acc p = acc ++ [initStanding p] := by
  have hany : acc.any (fun s => s.playerId = p) = false := by
    rw [List.any_eq_false]
    intro s hs
    simp [hp s hs]
  unfold statsInsert
  rw [hany]
  simp

/-- With distinct active players the init loop creates exactly one zeroed
entry per player, in order. -/
theorem initStats_keys (P : List String) (hP : P.Nodup) :
    (initStats P).map Standing.playerId = P := by
  suffices h : ∀ (Q : List String) (acc : List Standing), Q.Nodup →
      (∀ p ∈ Q, ∀ s ∈ acc, s.playerId ≠ p) →
      (Q.foldl statsInsert acc).map Standing.playerId
        = acc.map Standing.playerId ++ Q by
    simpa [initStats] using h P [] hP (by simp)
  intro Q
  induction Q with
  | nil => intro acc _ _; simp
  | cons p Q ih =>
    intro acc hnd hdisj
    rw [List.foldl_cons,
      statsInsert_of_fresh acc p (fun s hs => hdisj p (List.mem_cons_self p Q) s hs),
      ih (acc ++ [initStanding p]) (List.Nodup.of_cons hnd) ?fresh]
    · simp [initStanding]
    case fresh =>
      intro q hq s hs
      rcases List.mem_append.mp hs with hs | hs
      · exact hdisj q (List.mem_cons_of_mem p hq) s hs
      · simp only [List.mem_singleton] at hs
        subst hs
        intro hcontra
        have hpq : p = q := hcontra
        rw [← hpq] at hq
        exact (List.nodup_cons.mp hnd).1 hq

/-- One insertion step of the sort is a permutation. -/
theorem jsInsert_perm (x : Standing) (l : List Standing) :
    (jsInsert x l).Perm (x :: l) := by
  induction l with
  | nil => simp [jsInsert]
  | cons h t ih =>
    rw [jsInsert]
    split
    · exact List.Perm.refl _
    · exact (ih.cons h).trans (List.Perm.swap x h t)

/-- The embedded sort permutes its input. -/
theorem jsSort_perm (l : List Standing) : (jsSort l).Perm l := by
  suffices h : ∀ (l acc : List Standing),
      (l.foldl (fun acc x => jsInsert x acc) acc).Perm (acc ++ l) by
    simpa [jsSort] using h l []
  intro l
  induction l with
  | nil => intro acc; simp
  | cons x xs ih =>
    intro acc
    rw [List.foldl_cons]
    refine ((ih (jsInsert x acc)).trans
      ((List.Perm.append_right xs (jsInsert_perm x acc)).trans ?_))
    exact List.perm_middle.symm

/-- C2: with distinct active player ids, `computeStandings` returns exactly
one standing per active player (the returned `playerId`s are a permutation of
the input ids), and every returned `mwPct`, `gwPct`, `omwPct` and `ogwPct` is
at least 0.33 = 33/100. -/
theorem computeStandings_spec (P : List String) (rounds : List Round)
    (hP : P.Nodup) :
    ((computeStandings P rounds).map Standing.playerId).Perm P ∧
    ∀ s ∈ computeStandings P rounds,
      (33 : ℚ)/100 ≤ s.mwPct ∧ (33 : ℚ)/100 ≤ s.gwPct ∧
      (33 : ℚ)/100 ≤ s.omwPct ∧ (33 : ℚ)/100 ≤ s.ogwPct := by
  set stats := accumulateRounds (rounds.filter (fun r => r.status == "complete"))
    (initStats P) with hstats
  set fp := firstPassOf stats with hfp
  set res := secondPassOf fp with hres
  have hcs : computeStandings P rounds = jsSort res := rfl
  have hkeys2 : res.map Standing.playerId = fp.map Standing.playerId := by
    rw [hres]
    unfold secondPassOf
    rw [List.map_map]
    rfl
  have hkeys1 : fp.map Standing.playerId = stats.map Standing.playerId := by
    rw [hfp]
    unfold firstPassOf
    rw [List.map_map]
    rfl
  have hkeys0 : stats.map Standing.playerId = P := by
    rw [hstats, accumulateRounds_keys]
    exact initStats_keys P hP
  have hperm : ((jsSort res).map Standing.playerId).Perm P := by
    have h1 := (jsSort_perm res).map Standing.playerId
    rw [hkeys2, hkeys1, hkeys0] at h1
    exact h1
  refine ⟨by rw [hcs]; exact hperm, ?_⟩
  have hfpb : ∀ u ∈ fp, MIN_MATCH_WIN_PCT ≤ u.mwPct ∧ MIN_GAME_WIN_PCT ≤ u.gwPct := by
    intro u hu
    rw [hfp] at hu
    unfold firstPassOf at hu
    obtain ⟨u0, _, rfl⟩ := List.mem_map.mp hu
    exact ⟨matchWinPct_ge_min u0, gameWinPct_ge_min u0⟩
  intro s hs
  rw [hcs] at hs
  have hs' : s ∈ res := (jsSort_perm res).mem_iff.mp hs
  rw [hres] at hs'
  unfold secondPassOf at hs'
  obtain ⟨s1, hs1, rfl⟩ := List.mem_map.mp hs'
  refine ⟨(hfpb s1 hs1).1, (hfpb s1 hs1).2, ?_, ?_⟩
  · exact omwPctOf_ge_min s1 (byIdOf fp)
      (fun id st h => (hfpb st (List.mem_of_find?_eq_some h)).1)
  · exact ogwPctOf_ge_min s1 (byIdOf fp)
      (fun id st h => (hfpb st (List.mem_of_find?_eq_some h)).2)

/-- A concrete run of `computeStandings_spec` on two players with an empty
history. -/
theorem computeStandings_spec_witness :
    ((computeStandings ["A", "B"] []).map Standing.playerId).Perm ["A", "B"] ∧
    ∀ s ∈ computeStandings ["A", "B"] [],
      (33 : ℚ)/100 ≤ s.mwPct ∧ (33 : ℚ)/100 ≤ s.gwPct ∧
      (33 : ℚ)/100 ≤ s.omwPct ∧ (33 : ℚ)/100 ≤ s.ogwPct :=
  computeStandings_spec ["A", "B"] [] (by decide)

/-- `ratAbs` agrees with the lattice absolute value. -/
theorem ratAbs_eq_abs (q : ℚ) : ratAbs q = |q| := by
  unfold ratAbs
  split
  · next h => rw [abs_of_neg h]
  · next h => rw [abs_of_nonneg (le_of_not_lt h)]

/-- `Math.abs` of a difference is symmetric. -/
theorem ratAbs_sub_comm (a b : ℚ) : ratAbs (a - b) = ratAbs (b - a) := by
  rw [ratAbs_eq_abs, ratAbs_eq_abs, abs_sub_comm]

/-- The source comparator is antisymmetric: if `a` sorts strictly before `b`
then `b` does not sort strictly before `a`. -/
theorem standingLt_asymm (a b : Standing) (h : standingLt a b = true) :
    standingLt b a = false := by
  unfold standingLt at h ⊢
  by_cases h1 : a.matchPoints = b.matchPoints
  · rw [if_neg (fun hc : a.matchPoints ≠ b.matchPoints => hc h1)] at h
    rw [if_neg (fun hc : b.matchPoints ≠ a.matchPoints => hc h1.symm)]
    by_cases h2 : ratAbs (b.omwPct - a.omwPct) > SORT_EPS
    · rw [if_pos h2] at h
      rw [if_pos (by rwa [ratAbs_sub_comm])]
      simp only [decide_eq_true_eq] at h
      simp only [decide_eq_false_iff_not]
      exact lt_asymm h
    · rw [if_neg h2] at h
      rw [if_neg (by rwa [ratAbs_sub_comm])]
      by_cases h3 : ratAbs (b.gwPct - a.gwPct) > SORT_EPS
      · rw [if_pos h3] at h
        rw [if_pos (by rwa [ratAbs_sub_comm])]
        simp only [decide_eq_true_eq] at h
        simp only [decide_eq_false_iff_not]
        exact lt_asymm h
      · rw [if_neg h3] at h
        rw [if_neg (by rwa [ratAbs_sub_comm])]
        simp only [decide_eq_true_eq] at h
        simp only [decide_eq_false_iff_not]
        exact lt_asymm h
  · rw [if_pos h1] at h
    rw [if_pos (Ne.symm h1)]
    simp only [decide_eq_true_eq] at h
    simp only [decide_eq_false_iff_not]
    exact lt_asymm h

/-- The head of an insertion is the inserted element or the old head. -/
theorem jsInsert_head (x : Standing) (l : List Standing) :
    (jsInsert x l).head? = some x ∨ (jsInsert x l).head? = l.head? := by
  cases l with
  | nil => left; rfl
  | cons h t =>
    rw [jsInsert]
    split
    · left; rfl
    · right; rfl

/-- Insertion preserves sortedness under the comparator. -/
theorem chain'_jsInsert (x : Standing) (l : List Standing)
    (hl : List.Chain' (fun a b => standingLt b a = false) l) :
    List.Chain' (fun a b => standingLt b a = false) (jsInsert x l) := by
  induction l with
  | nil => simp [jsInsert]
  | cons h t ih =>
    rw [jsInsert]
    split
    · next hlt =>
      exact List.Chain'.cons (standingLt_asymm x h hlt) hl
    · next hlt =>
      have hins := ih (List.Chain'.tail hl)
      rw [List.chain'_cons']
      refine ⟨?_, hins⟩
      intro y hy
      rcases jsInsert_head x t with hh | hh
      · rw [hh, Option.mem_def, Option.some.injEq] at hy
        subst hy
        exact Bool.not_eq_true _ ▸ (by simpa using hlt)
      · rw [hh] at hy
        exact (List.chain'_cons'.mp hl).1 y hy

/-- Every output of the embedded sort is sorted under the comparator. -/
theorem jsSort_chain' (l : List Standing) :
    List.Chain' (fun a b => standingLt b a = false) (jsSort l) := by
  suffices h : ∀ (l acc : List Standing),
      List.Chain' (fun a b => standingLt b a = false) acc →
      List.Chain' (fun a b => standingLt b a = false)
        (l.foldl (fun acc x => jsInsert x acc) acc) by
    exact h l [] List.chain'_nil
  intro l
  induction l with
  | nil => intro acc hacc; exact hacc
  | cons x xs ih =>
    intro acc hacc
    rw [List.foldl_cons]
    exact ih (jsInsert x acc) (chain'_jsInsert x acc hacc)

/-- C8 counterexample: on `c8Round`, players `P` and `Q` are tied on match
points and within `1e-9` on all of OMW%, GW% and OGW%, so the claimed order
(epsilon on all three percentages, input order for fully tied players) would
keep `P` before `Q`; the code instead orders `Q` first because its final
OGW% comparison applies no epsilon. -/
theorem specChainBool_iff (P : List String) :
    ∀ l, specChainBool P l = true ↔
      List.Chain' (fun a b => specStandingLe P a b = true) l := by
  intro l
  match l with
  | [] => simp [specChainBool]
  | [a] => simp [specChainBool]
  | a :: b :: t =>
    rw [specChainBool, Bool.and_eq_true, specChainBool_iff P (b :: t),
      List.chain'_cons]

set_option maxHeartbeats 4000000 in
/-- C8 counterexample: on `c8Round`, players `P` and `Q` are tied on match
points and within `1e-9` on all of OMW%, GW% and OGW%, so the claimed order
(epsilon on all three percentage comparisons, input order for fully tied
players) would keep `P` before `Q`; the code orders `Q` first because its
final OGW% comparison applies no epsilon. -/
theorem computeStandings_claimOrder_counterexample :
    ¬ List.Chain' (fun a b => specStandingLe ["P", "Q", "X", "Y"] a b = true)
      (computeStandings ["P", "Q", "X", "Y"] [c8Round]) := by
  intro hchain
  have hb := (specChainBool_iff _ _).mpr hchain
  have hf : specChainBool ["P", "Q", "X", "Y"]
      (computeStandings ["P", "Q", "X", "Y"] [c8Round]) = false := by
    norm_num +decide [specChainBool, specStandingLe, computeStandings,
      accumulateRounds, initStats, statsInsert, initStanding, applyMatch,
      statsUpdate, player2Key, POINTS_WIN, POINTS_DRAW, firstPassOf,
      matchWinPct, gameWinPct, MIN_MATCH_WIN_PCT, MIN_GAME_WIN_PCT, byIdOf,
      secondPassOf, omwPctOf, ogwPctOf, jsSort, jsInsert, standingLt, SORT_EPS,
      ratAbs, c8Round, exRes, List.find?, List.indexOf, List.findIdx,
      List.findIdx.go, List.filterMap_cons, List.filterMap_nil, List.sum_cons,
      List.sum_nil]
  rw [hf] at hb
  exact Bool.false_ne_true hb

/-- C8 amended: the standings returned by `computeStandings` are sorted by
match points descending, then OMW% descending, then GW% descending, then
OGW% descending, where only the OMW% and GW% comparisons treat values within
`1e-9` as equal (passing the tie on); the final OGW% comparison is exact.
Formally every adjacent pair `(a, b)` of the output satisfies
`standingLt b a = false`, i.e. `b` does not sort strictly before `a` under
the source comparator. -/
theorem computeStandings_sorted (P : List String) (rounds : List Round) :
    List.Chain' (fun a b => standingLt b a = false)
      (computeStandings P rounds) :=
  jsSort_chain' _

/-- Re-initialising an existing key leaves the key row unchanged. -/
theorem statsInsert_map_playerId (acc : List Standing) (p : String)
    (hp : ∃ s ∈ acc, s.playerId = p) :
    (statsInsert acc p).map Standing.playerId = acc.map Standing.playerId := by
  unfold statsInsert
  rw [if_pos (by
    rw [List.any_eq_true]
    obtain ⟨s, hs, hsp⟩ := hp
    exact ⟨s, hs, by simp [hsp]⟩)]
  rw [List.map_map]
  apply List.map_congr_left
  intro a _
  by_cases h : a.playerId = p
  · simp [h, initStanding]
  · simp [h]

/-- The keys of the init loop are exactly the given active players. -/
theorem initStats_mem (P : List String) (id : String) :
    id ∈ (initStats P).map Standing.playerId ↔ id ∈ P := by
  suffices h : ∀ (Q : List String) (acc : List Standing),
      id ∈ (Q.foldl statsInsert acc).map Standing.playerId ↔
        id ∈ acc.map Standing.playerId ∨ id ∈ Q by
    simpa [initStats] using h P []
  intro Q
  induction Q with
  | nil => intro acc; simp
  | cons p Q ih =>
    intro acc
    rw [List.foldl_cons, ih (statsInsert acc p)]
    by_cases hp : ∃ s ∈ acc, s.playerId = p
    · rw [statsInsert_map_playerId acc p hp]
      constructor
      · rintro (h | h)
        · exact Or.inl h
        · exact Or.inr (List.mem_cons_of_mem p h)
      · rintro (h | h)
        · exact Or.inl h
        · rcases List.mem_cons.mp h with rfl | h
          · left
            obtain ⟨s, hs, hsp⟩ := hp
            exact hsp ▸ List.mem_map_of_mem Standing.playerId hs
          · exact Or.inr h
    · push_neg at hp
      rw [statsInsert_of_fresh acc p hp, List.map_append]
      simp [initStanding, List.mem_cons, or_assoc]

/-- Lookup of an id that is not an active player fails, at any point of the
accumulation. -/
theorem find?_none_of_absent (P : List String) (acc : List Standing)
    (id : String)
    (hkeys : acc.map Standing.playerId = (initStats P).map Standing.playerId)
    (hid : id ∉ P) : acc.find? (fun s => s.playerId = id) = none := by
  rw [List.find?_eq_none]
  intro s hs
  simp only [decide_eq_true_eq]
  intro heq
  apply hid
  rw [← initStats_mem P id, ← hkeys]
  exact heq ▸ List.mem_map_of_mem Standing.playerId hs

/-- A match referencing an id outside the active players accumulates
nothing (both the bye and the regular branch skip). -/
theorem applyMatch_absent (P : List String) (acc : List Standing)
    (m : MatchRec)
    (hkeys : acc.map Standing.playerId = (initStats P).map Standing.playerId)
    (hm : (m.isBye = true ∧ m.player1Id ∉ P) ∨
      (m.isBye = false ∧ (m.player1Id ∉ P ∨ player2Key m ∉ P))) :
    applyMatch acc m = acc := by
  rcases hm with ⟨hb, h1⟩ | ⟨hb, h12⟩
  · have hfind := find?_none_of_absent P acc m.player1Id hkeys h1
    simp [applyMatch, hb, hfind]
  · cases hres : m.result with
    | none => simp [applyMatch, hb, hres]
    | some res =>
      rcases h12 with h1 | h2
      · have hfind := find?_none_of_absent P acc m.player1Id hkeys h1
        simp [applyMatch, hb, hres, hfind]
      · have hfind := find?_none_of_absent P acc (player2Key m) hkeys h2
        simp [applyMatch, hb, hres, hfind]

/-- C10: a match in any round that references a player id absent from the
active player list (either side of a regular match, or the recipient of a
bye) contributes nothing to `computeStandings`: deleting it from its round
leaves the standings unchanged for everyone. -/
theorem computeStandings_skips_absent (P : List String)
    (pre post : List Round) (r : Round) (ms1 ms2 : List MatchRec)
    (m : MatchRec) (hr : r.«matches» = ms1 ++ m :: ms2)
    (hm : (m.isBye = true ∧ m.player1Id ∉ P) ∨
      (m.isBye = false ∧ (m.player1Id ∉ P ∨ player2Key m ∉ P))) :
    computeStandings P (pre ++ r :: post)
      = computeStandings P
          (pre ++ { r with «matches» := ms1 ++ ms2 } :: post) := by
  have hacc : accumulateRounds
      ((pre ++ r :: post).filter (fun rd => rd.status == "complete"))
      (initStats P)
      = accumulateRounds
          ((pre ++ { r with «matches» := ms1 ++ ms2 } :: post).filter
            (fun rd => rd.status == "complete"))
          (initStats P) := by
    rw [List.filter_append, List.filter_append, List.filter_cons,
      List.filter_cons]
    by_cases hst : (r.status == "complete") = true
    · rw [if_pos hst, if_pos hst]
      unfold accumulateRounds
      rw [List.foldl_append, List.foldl_append, List.foldl_cons,
        List.foldl_cons]
      congr 1
      show r.«matches».foldl applyMatch _ = (ms1 ++ ms2).foldl applyMatch _
      rw [hr, List.foldl_append, List.foldl_append, List.foldl_cons,
        applyMatch_absent P _ m ?keys hm]
      case keys =>
        rw [foldl_applyMatch_keys]
        exact accumulateRounds_keys _ _
    · rw [if_neg hst, if_neg hst]
  unfold computeStandings
  rw [hacc]

/-- A concrete run of `computeStandings_skips_absent`: the only match of the
only round is between two players absent from the active list. -/
theorem computeStandings_skips_absent_witness :
    computeStandings ["A"] ([] ++ c10Round :: [])
      = computeStandings ["A"]
          ([] ++ { c10Round with «matches» := ([] : List MatchRec) ++ [] } :: []) :=
  computeStandings_skips_absent ["A"] [] [] c10Round [] [] c10Match rfl
    (by decide)

/-- The canonical matchup key does not depend on the order of the two ids. -/
theorem matchupKey_comm (a b : String) : matchupKey a b = matchupKey b a := by
  unfold matchupKey
  rcases lt_trichotomy a b with h | h | h
  · rw [if_neg (asymm h), if_pos h]
  · subst h; rfl
  · rw [if_pos h, if_neg (asymm h)]

/-- `hasPlayed` is symmetric. -/
theorem hasPlayed_comm (a b : String) (prior : List String) :
    hasPlayed a b prior = hasPlayed b a prior := by
  unfold hasPlayed
  rw [matchupKey_comm]

/-- Soundness of the backtracking pairer: a returned pairing has no rematch
and schedules exactly the given players. -/
theorem backtrack_sound (prior : List String) :
    ∀ n : ℕ, ∀ (ps : List String) (pairs : List PlayerPair),
      ps.length ≤ n → backtrackPair ps prior = some pairs →
      rematchFree pairs prior ∧ (flattenPairs pairs).Perm ps := by
  intro n
  induction n with
  | zero =>
    intro ps pairs hlen h
    have hps : ps = [] := List.length_eq_zero.mp (Nat.le_zero.mp hlen)
    subst hps
    simp only [backtrackPair] at h
    obtain rfl : ([] : List PlayerPair) = pairs := Option.some.inj h
    exact ⟨fun p hp => absurd hp (List.not_mem_nil p), List.Perm.refl _⟩
  | succ n ih =>
    intro ps pairs hlen h
    cases ps with
    | nil =>
      simp only [backtrackPair] at h
      obtain rfl : ([] : List PlayerPair) = pairs := Option.some.inj h
      exact ⟨fun p hp => absurd hp (List.not_mem_nil p), List.Perm.refl _⟩
    | cons first rest =>
      simp only [backtrackPair] at h
      have hrest : rest.length ≤ n := by
        simp only [List.length_cons] at hlen
        omega
      have aux : ∀ (rest' tried : List String) (pairs' : List PlayerPair),
          tried.length + rest'.length = rest.length →
          btAux first tried rest' prior = some pairs' →
          rematchFree pairs' prior ∧
            (flattenPairs pairs').Perm (first :: (tried.reverse ++ rest')) := by
        intro rest'
        induction rest' with
        | nil =>
          intro tried pairs' _ h'
          simp only [btAux] at h'
          exact Option.noConfusion h'
        | cons o rs ihr =>
          intro tried pairs' hlen' h'
          simp only [btAux] at h'
          by_cases hp : hasPlayed first o prior = true
          · rw [if_pos hp] at h'
            obtain ⟨hfree, hperm⟩ := ihr (o :: tried) pairs'
              (by simp only [List.length_cons] at hlen' ⊢; omega) h'
            refine ⟨hfree, hperm.trans (List.Perm.cons first ?_)⟩
            rw [List.reverse_cons, List.append_assoc]
            exact List.Perm.refl _
          · rw [if_neg hp] at h'
            cases hbt : backtrackPair (tried.reverse ++ rs) prior with
            | some sub =>
              rw [hbt] at h'
              obtain rfl : ({ player1Id := first, player2Id := o } : PlayerPair)
                  :: sub = pairs' := Option.some.inj h'
              have hlen2 : (tried.reverse ++ rs).length ≤ n := by
                simp only [List.length_append, List.length_reverse]
                simp only [List.length_cons] at hlen'
                omega
              obtain ⟨hfree, hperm⟩ := ih (tried.reverse ++ rs) sub hlen2 hbt
              constructor
              · intro q hq
                rcases List.mem_cons.mp hq with rfl | hq
                · simpa using hp
                · exact hfree q hq
              · show (first :: o :: flattenPairs sub).Perm _
                refine List.Perm.cons first ?_
                exact (List.Perm.cons o hperm).trans List.perm_middle.symm
            | none =>
              rw [hbt] at h'
              obtain ⟨hfree, hperm⟩ := ihr (o :: tried) pairs'
                (by simp only [List.length_cons] at hlen' ⊢; omega) h'
              refine ⟨hfree, hperm.trans (List.Perm.cons first ?_)⟩
              rw [List.reverse_cons, List.append_assoc]
              exact List.Perm.refl _
      obtain ⟨hfree, hperm⟩ := aux rest [] pairs (by simp) h
      exact ⟨hfree, by simpa using hperm⟩

/-- Completeness of the backtracking pairer: whenever some rematch-free
complete pairing of the players exists, the search finds one. -/
theorem backtrack_complete (prior : List String) :
    ∀ n : ℕ, ∀ ps : List String, ps.length ≤ n →
      completePairingExists ps prior → (backtrackPair ps prior).isSome := by
  intro n
  induction n with
  | zero =>
    intro ps hlen _
    have hps : ps = [] := List.length_eq_zero.mp (Nat.le_zero.mp hlen)
    subst hps
    simp [backtrackPair]
  | succ n ih =>
    intro ps hlen hex
    cases ps with
    | nil => simp [backtrackPair]
    | cons first rest =>
      simp only [backtrackPair]
      have hrest : rest.length ≤ n := by
        simp only [List.length_cons] at hlen
        omega
      obtain ⟨M, hperm, hfree⟩ := hex
      -- locate the pair of `first` and name its partner `o`
      have hfirst : first ∈ flattenPairs M :=
        hperm.mem_iff.mpr (List.mem_cons_self _ _)
      obtain ⟨pr, hprM, hfirstpr⟩ :
          ∃ pr ∈ M, first = pr.player1Id ∨ first = pr.player2Id := by
        unfold flattenPairs at hfirst
        rw [List.mem_flatMap] at hfirst
        obtain ⟨pr, hpr, hmem⟩ := hfirst
        refine ⟨pr, hpr, ?_⟩
        simpa using hmem
      obtain ⟨M1, M2, rfl⟩ := List.append_of_mem hprM
      have hsplit : (flattenPairs (M1 ++ pr :: M2)).Perm
          (pr.player1Id :: pr.player2Id :: flattenPairs (M1 ++ M2)) := by
        unfold flattenPairs
        rw [List.flatMap_append, List.flatMap_cons, List.flatMap_append,
          ← List.append_assoc]
        refine ((List.perm_append_comm).append_right _).trans ?_
        rw [List.append_assoc]
        exact List.Perm.refl _
      have hfreeRest : rematchFree (M1 ++ M2) prior := by
        intro q hq
        apply hfree
        rcases List.mem_append.mp hq with hq | hq
        · exact List.mem_append.mpr (Or.inl hq)
        · exact List.mem_append.mpr (Or.inr (List.mem_cons_of_mem pr hq))
      -- the partner of `first` in `pr`, with the remaining players
      have hmain : ∃ o ∈ rest, hasPlayed first o prior = false ∧
          completePairingExists (rest.erase o) prior := by
        have hperm2 : (first :: rest).Perm
            (pr.player1Id :: pr.player2Id :: flattenPairs (M1 ++ M2)) :=
          hperm.symm.trans hsplit
        rcases hfirstpr with h1 | h2
        · -- first = pr.player1Id, partner is pr.player2Id
          rw [← h1] at hperm2
          have hrperm : rest.Perm (pr.player2Id :: flattenPairs (M1 ++ M2)) :=
            hperm2.cons_inv
          obtain ⟨ho, he⟩ := (List.cons_perm_iff_perm_erase.mp hrperm.symm)
          refine ⟨pr.player2Id, ho, ?_, ?_⟩
          · rw [h1]; exact hfree pr hprM
          · exact ⟨M1 ++ M2, he, hfreeRest⟩
        · -- first = pr.player2Id, partner is pr.player1Id
          have hswap : (first :: rest).Perm
              (pr.player1Id :: first :: flattenPairs (M1 ++ M2)) := by
            rw [← h2] at hperm2
            exact hperm2
          have hperm3 : (first :: rest).Perm
              (first :: pr.player1Id :: flattenPairs (M1 ++ M2)) :=
            hswap.trans (List.Perm.swap first pr.player1Id _)
          have hrperm : rest.Perm (pr.player1Id :: flattenPairs (M1 ++ M2)) :=
            hperm3.cons_inv
          obtain ⟨ho, he⟩ := (List.cons_perm_iff_perm_erase.mp hrperm.symm)
          refine ⟨pr.player1Id, ho, ?_, ?_⟩
          · rw [hasPlayed_comm, h2]; exact hfree pr hprM
          · exact ⟨M1 ++ M2, he, hfreeRest⟩
      have aux : ∀ (rest' tried : List String),
          tried.length + rest'.length = rest.length →
          (∃ o ∈ rest', hasPlayed first o prior = false ∧
            completePairingExists (tried.reverse ++ rest'.erase o) prior) →
          (btAux first tried rest' prior).isSome = true := by
        intro rest'
        induction rest' with
        | nil =>
          rintro tried _ ⟨o, ho, _⟩
          exact absurd ho (List.not_mem_nil o)
        | cons o' rs ihr =>
          rintro tried hlen' ⟨o, ho, hnp, hex'⟩
          simp only [btAux]
          by_cases hp : hasPlayed first o' prior = true
          · rw [if_pos hp]
            have hoo : o ≠ o' := by
              intro he
              rw [he] at hnp
              rw [hnp] at hp
              exact Bool.false_ne_true hp
            have ho2 : o ∈ rs := by
              rcases List.mem_cons.mp ho with rfl | hh
              · exact absurd rfl hoo
              · exact hh
            apply ihr (o' :: tried)
              (by simp only [List.length_cons] at hlen' ⊢; omega)
            refine ⟨o, ho2, hnp, ?_⟩
            rw [List.reverse_cons, List.append_assoc]
            have herase : (o' :: rs).erase o = o' :: rs.erase o := by
              rw [List.erase_cons]
              rw [if_neg (by simp [Ne.symm hoo])]
            rw [herase] at hex'
            exact hex'
          · rw [if_neg hp]
            cases hbt : backtrackPair (tried.reverse ++ rs) prior with
            | some r => simp
            | none =>
              by_cases hoo : o = o'
              · exfalso
                subst hoo
                rw [List.erase_cons_head] at hex'
                have hsome := ih (tried.reverse ++ rs)
                  (by
                    simp only [List.length_append, List.length_reverse]
                    simp only [List.length_cons] at hlen'
                    omega) hex'
                rw [hbt] at hsome
                simp at hsome
              · have ho2 : o ∈ rs := by
                  rcases List.mem_cons.mp ho with rfl | hh
                  · exact absurd rfl hoo
                  · exact hh
                apply ihr (o' :: tried)
                  (by simp only [List.length_cons] at hlen' ⊢; omega)
                refine ⟨o, ho2, hnp, ?_⟩
                rw [List.reverse_cons, List.append_assoc]
                have herase : (o' :: rs).erase o = o' :: rs.erase o := by
                  rw [List.erase_cons]
                  rw [if_neg (by simp [Ne.symm hoo])]
                rw [herase] at hex'
                exact hex'
      apply aux rest [] (by simp)
      obtain ⟨o, ho, hnp, hex0⟩ := hmain
      exact ⟨o, ho, hnp, by simpa using hex0⟩

/-- C1: when at least one round has been completed, `pairRound` returns a
pairing with no pair already present in `buildPriorMatchups`, unless no
rematch-free complete pairing of the scheduled players exists (the greedy
fallback case). -/
theorem pairRound_no_rematch (playerIds : List String) (cr : List Round)
    (bye : Option String) (hcr : cr ≠ []) :
    (∀ p ∈ pairRound playerIds cr bye,
        hasPlayed p.player1Id p.player2Id (buildPriorMatchups cr) = false)
    ∨ ¬ completePairingExists (playersToSchedule playerIds bye)
          (buildPriorMatchups cr) := by
  have hne : ¬ cr.length = 0 := fun h => hcr (List.length_eq_zero.mp h)
  have hpr : pairRound playerIds cr bye =
      (match backtrackPair (playersToSchedule playerIds bye)
          (buildPriorMatchups cr) with
       | none => greedyPair (playersToSchedule playerIds bye)
       | some pairs => pairs) := by
    show (if cr.length = 0 then _ else _) = _
    rw [if_neg hne]
  cases hbt : backtrackPair (playersToSchedule playerIds bye)
      (buildPriorMatchups cr) with
  | some pairs =>
    left
    rw [hpr, hbt]
    exact (backtrack_sound (buildPriorMatchups cr)
      (playersToSchedule playerIds bye).length _ pairs (Nat.le_refl _) hbt).1
  | none =>
    right
    intro hex
    have hsome := backtrack_complete (buildPriorMatchups cr)
      (playersToSchedule playerIds bye).length _ (Nat.le_refl _) hex
    rw [hbt] at hsome
    simp at hsome

/-- A concrete run of `pairRound_no_rematch`: two fresh players, one
completed round between two other players. -/
theorem pairRound_no_rematch_witness :
    (∀ p ∈ pairRound ["A", "D"] [c10Round] none,
        hasPlayed p.player1Id p.player2Id (buildPriorMatchups [c10Round]) = false)
    ∨ ¬ completePairingExists (playersToSchedule ["A", "D"] none)
          (buildPriorMatchups [c10Round]) :=
  pairRound_no_rematch ["A", "D"] [c10Round] none (by decide)

/-- `selectByePlayer` on a nonempty ranking returns one of its players. -/
theorem selectByePlayer_mem (ps : List String) (cr : List Round)
    (hne : ps ≠ []) :
    ∃ b, selectByePlayer ps cr = some b ∧ b ∈ ps := by
  obtain ⟨hmain, -⟩ := selectByePlayer_spec ps cr hne
  refine ⟨_, hmain, ?_⟩
  cases hf : ps.reverse.find? (fun id => !(priorByeRecipients cr).contains id) with
  | some id =>
    rw [Option.getD_some]
    exact List.mem_reverse.mp (List.mem_of_find?_eq_some hf)
  | none =>
    rw [Option.getD_none]
    exact List.getLast_mem hne

/-- `_foldPair` as a zip of the two halves. -/
theorem foldPair_eq_zip (ps : List String) :
    foldPair ps
      = ((ps.take (ps.length / 2)).zip (ps.drop (ps.length / 2))).map
          (fun q => { player1Id := q.1, player2Id := q.2 }) := by
  apply List.ext_getElem
  · simp only [foldPair, List.length_map, List.length_range, List.length_zip,
      List.length_take, List.length_drop]
    omega
  · intro i h1 h2
    simp only [foldPair, List.length_map, List.length_range] at h1
    have hi2 : i < ps.length / 2 := h1
    have hib : i < ps.length := by omega
    have hib2 : i + ps.length / 2 < ps.length := by omega
    simp only [foldPair, List.getElem_map, List.getElem_range,
      List.getElem_zip, List.getElem_take, List.getElem_drop]
    have e1 : ps.getD i "" = ps[i] := by
      rw [List.getD, List.get?_eq_getElem?, List.getElem?_eq_getElem hib,
        Option.getD_some]
    have e2 : ps.getD (i + ps.length / 2) "" = ps[ps.length / 2 + i] := by
      rw [List.getD, List.get?_eq_getElem?,
        List.getElem?_eq_getElem (by omega : i + ps.length / 2 < ps.length),
        Option.getD_some]
      congr 1
      omega
    rw [e1, e2]

/-- The fold pairing of an even-length list schedules every player once. -/
theorem flatten_foldPair_perm (ps : List String) (h : ps.length % 2 = 0) :
    (flattenPairs (foldPair ps)).Perm ps := by
  rw [foldPair_eq_zip]
  have key : ∀ A B : List String, A.length = B.length →
      (flattenPairs ((A.zip B).map
        (fun q => ({ player1Id := q.1, player2Id := q.2 } : PlayerPair)))).Perm
        (A ++ B) := by
    intro A
    induction A with
    | nil =>
      intro B hB
      rw [List.length_nil] at hB
      rw [(List.length_eq_zero.mp hB.symm)]
      exact List.Perm.refl _
    | cons a A ihA =>
      intro B hB
      cases B with
      | nil => simp at hB
      | cons b B =>
        show ((a :: b :: flattenPairs _)).Perm (a :: A ++ b :: B)
        refine List.Perm.cons a ?_
        refine (List.Perm.cons b (ihA B (by simpa using hB))).trans ?_
        exact List.perm_middle.symm
  have hlen : (ps.take (ps.length / 2)).length = (ps.drop (ps.length / 2)).length := by
    simp only [List.length_take, List.length_drop]
    omega
  refine (key _ _ hlen).trans ?_
  rw [List.take_append_drop]

/-- The greedy fallback on an even-length list schedules every player once,
in order. -/
theorem flatten_greedyPair (ps : List String) (h : ps.length % 2 = 0) :
    flattenPairs (greedyPair ps) = ps := by
  suffices key : ∀ (n : ℕ) (qs : List String), qs.length ≤ n →
      qs.length % 2 = 0 → flattenPairs (greedyPair qs) = qs from
    key ps.length ps (Nat.le_refl _) h
  intro n
  induction n with
  | zero =>
    intro qs hlen _
    rw [List.length_eq_zero.mp (Nat.le_zero.mp hlen)]
    rfl
  | succ n ih =>
    intro qs hlen hpar
    match qs with
    | [] => rfl
    | [a] => simp at hpar
    | a :: b :: rest =>
      show a :: b :: flattenPairs (greedyPair rest) = a :: b :: rest
      rw [ih rest (by simp at hlen; omega) (by simp at hpar ⊢; omega)]

/-- Whatever branch `pairRound` takes, an even-length scheduled list is
covered exactly by the returned pairs. -/
theorem pairRound_flatten_perm (ps : List String) (cr : List Round)
    (bye : Option String)
    (heven : (playersToSchedule ps bye).length % 2 = 0) :
    (flattenPairs (pairRound ps cr bye)).Perm (playersToSchedule ps bye) := by
  by_cases hcr : cr.length = 0
  · have hfold : pairRound ps cr bye = foldPair (playersToSchedule ps bye) := by
      show (if cr.length = 0 then _ else _) = _
      rw [if_pos hcr]
    rw [hfold]
    exact flatten_foldPair_perm _ heven
  · have hpr : pairRound ps cr bye =
        (match backtrackPair (playersToSchedule ps bye) (buildPriorMatchups cr) with
         | none => greedyPair (playersToSchedule ps bye)
         | some pairs => pairs) := by
      show (if cr.length = 0 then _ else _) = _
      rw [if_neg hcr]
    cases hbt : backtrackPair (playersToSchedule ps bye) (buildPriorMatchups cr) with
    | some pairs =>
      rw [hpr, hbt]
      exact (backtrack_sound (buildPriorMatchups cr)
        (playersToSchedule ps bye).length _ pairs (Nat.le_refl _) hbt).2
    | none =>
      rw [hpr, hbt, flatten_greedyPair _ heven]

/-- A list of pairs in which a player occurs at most once contains exactly
`count` pairs mentioning that player. -/
theorem countP_pairs_eq_count (q : String) :
    ∀ pairs : List PlayerPair, (flattenPairs pairs).count q ≤ 1 →
      pairs.countP (fun p => p.player1Id == q || p.player2Id == q)
        = (flattenPairs pairs).count q := by
  intro pairs
  induction pairs with
  | nil => intro; rfl
  | cons p rest ih =>
    intro hle
    have hflat : flattenPairs (p :: rest)
        = p.player1Id :: p.player2Id :: flattenPairs rest := rfl
    rw [hflat] at hle ⊢
    rw [List.countP_cons, List.count_cons, List.count_cons] at *
    by_cases h1 : p.player1Id = q <;> by_cases h2 : p.player2Id = q <;>
      simp only [h1, h2, beq_self_eq_true, Bool.or_eq_true, beq_iff_eq,
        if_true, if_false, decide_True, decide_False] at *
    · omega
    · have := ih (by omega)
      simp [h1, h2] at *
      omega
    · have := ih (by omega)
      simp [h1, h2] at *
      omega
    · have := ih (by omega)
      simp [h1, h2] at *
      omega

/-- Filtering one occurrence out of a duplicate-free list shortens it by
exactly one. -/
theorem length_filter_ne_of_nodup (ord : List String) (b : String)
    (hnd : ord.Nodup) (hb : b ∈ ord) :
    (ord.filter (fun id => id ≠ b)).length = ord.length - 1 := by
  induction ord with
  | nil => cases hb
  | cons a t ih =>
    rw [List.filter_cons]
    by_cases hab : a = b
    · subst hab
      rw [if_neg (by simp)]
      have hnin : a ∉ t := (List.nodup_cons.mp hnd).1
      have : t.filter (fun id => id ≠ a) = t := by
        apply List.filter_eq_self.mpr
        intro x hx
        simp only [ne_eq, decide_eq_true_eq]
        intro hxa
        exact hnin (hxa ▸ hx)
      rw [this]
      simp
    · rw [if_pos (by simp [Ne.symm]; exact hab)]
      have hbt : b ∈ t := by
        rcases List.mem_cons.mp hb with rfl | h
        · exact absurd rfl hab
        · exact h
      rw [List.length_cons, ih (List.nodup_cons.mp hnd).2 hbt]
      have : 1 ≤ t.length := List.length_pos.mpr (fun he => by
        subst he; cases hbt)
      simp
      omega

/-- Transfer of pair-membership counting through the match materialisation. -/
theorem countP_enumFrom_map (g : ℕ × PlayerPair → MatchRec)
    (pred : MatchRec → Bool) (pq : PlayerPair → Bool)
    (hg : ∀ i p, pred (g (i, p)) = pq p) :
    ∀ (l : List PlayerPair) (k : ℕ),
      ((List.enumFrom k l).map g).countP pred = l.countP pq := by
  intro l
  induction l with
  | nil => intro k; rfl
  | cons p t ih =>
    intro k
    rw [List.enumFrom_cons, List.map_cons, List.countP_cons, List.countP_cons,
      ih (k + 1), hg k p]

/-- The second component of an enumerated entry is a member. -/
theorem snd_mem_of_mem_enumFrom :
    ∀ (l : List PlayerPair) (k : ℕ) (ip : ℕ × PlayerPair),
      ip ∈ List.enumFrom k l → ip.2 ∈ l := by
  intro l
  induction l with
  | nil => intro k ip h; cases h
  | cons p t ih =>
    intro k ip h
    rw [List.enumFrom_cons] at h
    rcases List.mem_cons.mp h with rfl | h
    · exact List.mem_cons_self _ _
    · exact List.mem_cons_of_mem _ (ih (k + 1) ip h)

/-- A pair's first player is scheduled. -/
theorem mem_flattenPairs_left (pairs : List PlayerPair) (p : PlayerPair)
    (hp : p ∈ pairs) : p.player1Id ∈ flattenPairs pairs := by
  unfold flattenPairs
  rw [List.mem_flatMap]
  exact ⟨p, hp, by simp⟩

/-- A pair's second player is scheduled. -/
theorem mem_flattenPairs_right (pairs : List PlayerPair) (p : PlayerPair)
    (hp : p ∈ pairs) : p.player2Id ∈ flattenPairs pairs := by
  unfold flattenPairs
  rw [List.mem_flatMap]
  exact ⟨p, hp, by simp⟩

/-- C6: on an active tournament whose ordering has an odd number of distinct
(nonempty-id) players, `pairNextRound` appends a round consisting of non-bye
pair matches followed by exactly one bye match whose `player1` is the
`selectByePlayer` choice, whose `player2Id` is `null`, whose `isBye` flag is
set and whose result is the synthetic 2-0 recorded at creation; the bye
player is in no pair and every other player of the ordering is in exactly
one pair. -/
theorem pairNextRound_bye_spec (fresh : ℕ → String) (now : String)
    (s : AppState) (t : Tournament) (ht : s.tournament = some t)
    (hact : t.status = "active")
    (hodd : (nextRoundOrdering t).length % 2 = 1)
    (hnd : (nextRoundOrdering t).Nodup)
    (hq : "" ∉ nextRoundOrdering t) :
    ∃ b ms t2,
      selectByePlayer (nextRoundOrdering t)
          (t.rounds.filter (fun r => r.status == "complete")) = some b ∧
      (pairNextRound fresh now s).tournament = some t2 ∧
      t2.rounds = t.rounds ++
        [{ roundNumber :=
             (t.rounds.filter (fun r => r.status == "complete")).length + 1,
           status := "active",
           «matches» := ms ++
             [{ id := fresh ms.length, player1Id := b, player2Id := none,
                isBye := true,
                result := some { player1Wins := 2, player2Wins := 0,
                                 draws := 0, submittedAt := now,
                                 correctedAt := none } }] }] ∧
      (∀ mm ∈ ms, mm.isBye = false ∧ mm.player1Id ≠ b ∧
        mm.player2Id ≠ some b) ∧
      (∀ q ∈ nextRoundOrdering t, q ≠ b →
        ms.countP (fun mm => mm.player1Id == q || mm.player2Id == some q)
          = 1) := by
  have hne : nextRoundOrdering t ≠ [] := by
    intro h
    rw [h] at hodd
    simp at hodd
  obtain ⟨b, hb, hbmem⟩ := selectByePlayer_mem (nextRoundOrdering t)
    (t.rounds.filter (fun r => r.status == "complete")) hne
  have hbne : b ≠ "" := fun h => hq (h ▸ hbmem)
  have hbye : byeForRound (nextRoundOrdering t)
      (t.rounds.filter (fun r => r.status == "complete")) = some b := by
    unfold byeForRound
    rw [if_pos (by omega)]
    exact hb
  set cr := t.rounds.filter (fun r => r.status == "complete") with hcrdef
  set ord := nextRoundOrdering t with horddef
  set pairs := pairRound ord cr (some b) with hpairsdef
  set ms := pairs.enum.map (fun ip =>
    ({ id := fresh ip.1, player1Id := ip.2.player1Id,
       player2Id := some ip.2.player2Id, isBye := false,
       result := none } : MatchRec)) with hmsdef
  have hmslen : ms.length = pairs.length := by
    rw [hmsdef]
    simp
  have hbuild : buildMatches fresh now pairs (some b)
      = ms ++ [{ id := fresh ms.length, player1Id := b, player2Id := none,
                 isBye := true,
                 result := some { player1Wins := 2, player2Wins := 0,
                                  draws := 0, submittedAt := now,
                                  correctedAt := none } }] := by
    unfold buildMatches
    rw [if_pos (by simp [jsTruthyStr, hbne]), hmslen]
    rfl
  have hrun : pairNextRound fresh now s =
      AppState.mk
        (some (Tournament.mk t.id t.dateStr t.status (cr.length + 1)
          t.activePlayers t.droppedPlayers
          (t.rounds ++ [Round.mk (cr.length + 1) "active"
            (buildMatches fresh now pairs (some b))])
          t.seatingOrder))
        s.pastTournaments := by
    simp only [pairNextRound, ht]
    rw [if_neg (by rw [hact]; simp)]
    rw [hbye]
  have hps : playersToSchedule ord (some b) = ord.filter (fun id => id ≠ b) := by
    show (if b ≠ "" then ord.filter (fun id => id ≠ b) else ord) = _
    rw [if_pos hbne]
  have hevenlen : (ord.filter (fun id => id ≠ b)).length % 2 = 0 := by
    rw [length_filter_ne_of_nodup ord b hnd hbmem]
    have hO : ord.length ≠ 0 := fun h => hne (List.length_eq_zero.mp h)
    omega
  have hflt : (flattenPairs pairs).Perm (ord.filter (fun id => id ≠ b)) := by
    have h := pairRound_flatten_perm ord cr (some b) (by rw [hps]; exact hevenlen)
    rw [hps] at h
    exact h
  have hb_not_flat : b ∉ flattenPairs pairs := by
    intro hmem
    have h1 := hflt.mem_iff.mp hmem
    have h2 := (List.mem_filter.mp h1).2
    simp at h2
  refine ⟨b, ms,
    Tournament.mk t.id t.dateStr t.status (cr.length + 1) t.activePlayers
      t.droppedPlayers
      (t.rounds ++ [Round.mk (cr.length + 1) "active"
        (buildMatches fresh now pairs (some b))])
      t.seatingOrder,
    hb, ?_, ?_, ?_, ?_⟩
  · rw [hrun]
  · show t.rounds ++ [Round.mk (cr.length + 1) "active"
        (buildMatches fresh now pairs (some b))] = _
    rw [hbuild]
  · intro mm hmm
    rw [hmsdef] at hmm
    obtain ⟨ip, hip, rfl⟩ := List.mem_map.mp hmm
    have hp2 : ip.2 ∈ pairs := snd_mem_of_mem_enumFrom pairs 0 ip hip
    refine ⟨rfl, ?_, ?_⟩
    · intro h1
      exact hb_not_flat (h1 ▸ mem_flattenPairs_left pairs ip.2 hp2)
    · intro h2
      have h2' : ip.2.player2Id = b := Option.some.inj h2
      exact hb_not_flat (h2' ▸ mem_flattenPairs_right pairs ip.2 hp2)
  · intro q hqmem hqb
    have hqfil : q ∈ ord.filter (fun id => id ≠ b) :=
      List.mem_filter.mpr ⟨hqmem, by simp [hqb]⟩
    have hnodupfil : (ord.filter (fun id => id ≠ b)).Nodup := hnd.filter _
    have hcount : (flattenPairs pairs).count q = 1 := by
      rw [hflt.count_eq]
      exact List.count_eq_one_of_mem hnodupfil hqfil
    rw [hmsdef]
    show ((List.enumFrom 0 pairs).map _).countP _ = 1
    rw [countP_enumFrom_map _ _
      (fun p => p.player1Id == q || p.player2Id == q) (fun i p => rfl) pairs 0]
    rw [countP_pairs_eq_count q pairs (by simp [hcount]), hcount]

/-- A concrete run of `pairNextRound_bye_spec` on three players with no
history. -/
theorem pairNextRound_bye_spec_witness :
    ∃ b ms t2,
      selectByePlayer (nextRoundOrdering c6Tournament)
          (c6Tournament.rounds.filter (fun r => r.status == "complete"))
        = some b ∧
      (pairNextRound (fun _ => "u") "n" c6State).tournament = some t2 ∧
      t2.rounds = c6Tournament.rounds ++
        [{ roundNumber :=
             (c6Tournament.rounds.filter
               (fun r => r.status == "complete")).length + 1,
           status := "active",
           «matches» := ms ++
             [{ id := (fun _ => "u") ms.length, player1Id := b,
                player2Id := none, isBye := true,
                result := some { player1Wins := 2, player2Wins := 0,
                                 draws := 0, submittedAt := "n",
                                 correctedAt := none } }] }] ∧
      (∀ mm ∈ ms, mm.isBye = false ∧ mm.player1Id ≠ b ∧
        mm.player2Id ≠ some b) ∧
      (∀ q ∈ nextRoundOrdering c6Tournament, q ≠ b →
        ms.countP (fun mm => mm.player1Id == q || mm.player2Id == some q)
          = 1) :=
  pairNextRound_bye_spec (fun _ => "u") "n" c6State c6Tournament rfl rfl
    (by decide) (by decide) (by decide)

end TournamentOrganizer
